import Mathlib

/-!
Verification of the decision core of the issue label microservice
(`label_microservice`): the Pub/Sub worker callback, the per-label
probability-threshold calibration, model-key resolution, prediction
dispatch, and the embedding decode.  Python code is shallowly embedded:
probabilities become `ℚ`, fallible calls become `Except`/`Option`,
external collaborators (GitHub, GCS, the MLP classifier, the embedding
HTTP service) become explicit parameters.
-/

namespace LabelMicroservice

/-! ### Worker callback (worker.py, `Worker.subscribe.callback`)

The callback reads the event attributes, runs the processing body
(`load_yaml`, `download_model_from_gcs`, `predict_labels`,
`add_labels_to_issue`, then an info log) inside a `try` block whose
`except Exception` clause only logs, and finally calls `message.ack()`
unconditionally, outside the `try`.  Each fallible step is modelled as an
`Except` value supplied by the environment; the callback's observable
behaviour is the list of events it performs. -/

/-- Observable events of one callback invocation.  The processing steps
have no access to `message.ack`; only the callback epilogue acknowledges. -/
inductive CallbackEvent where
  | logReceive
  | loadYaml
  | downloadModel
  | predictLabels
  | addLabels
  | logPrediction
  | logError
  | ack
deriving DecidableEq

/-- Parallel label/probability lists as returned by
`Worker.predict_labels` (a dict with keys `labels`, `probabilities`). -/
structure Predictions where
  labels : List String
  probabilities : List ℚ
deriving DecidableEq

/-- Outcomes of the external calls made inside the callback's `try` block,
in program order.  `.error` means the Python call raised. -/
structure WorkerEnv where
  loadYaml : Except String Unit
  downloadModel : Except String Unit
  predictLabels : Except String (Predictions × Option (List ℕ))
  addLabels : Predictions → Except String Unit

/-- Event trace of `Worker.subscribe.callback`: the body short-circuits at
the first raising step, the `except` clause logs the error, and the
acknowledgement is performed unconditionally after the `try` statement. -/
def callbackTrace (env : WorkerEnv) : List CallbackEvent :=
  CallbackEvent.logReceive ::
  (match env.loadYaml with
   | .error _ => [CallbackEvent.loadYaml, CallbackEvent.logError]
   | .ok _ =>
     match env.downloadModel with
     | .error _ => [CallbackEvent.loadYaml, CallbackEvent.downloadModel,
                    CallbackEvent.logError]
     | .ok _ =>
       match env.predictLabels with
       | .error _ => [CallbackEvent.loadYaml, CallbackEvent.downloadModel,
                      CallbackEvent.predictLabels, CallbackEvent.logError]
       | .ok (preds, _) =>
         match env.addLabels preds with
         | .error _ => [CallbackEvent.loadYaml, CallbackEvent.downloadModel,
                        CallbackEvent.predictLabels, CallbackEvent.addLabels,
                        CallbackEvent.logError]
         | .ok _ => [CallbackEvent.loadYaml, CallbackEvent.downloadModel,
                     CallbackEvent.predictLabels, CallbackEvent.addLabels,
                     CallbackEvent.logPrediction])
  ++ [CallbackEvent.ack]

/-! ### Model registry and resolution (issue_label_predictor.py) -/

/-- Key construction `_combined_model_name(org, repo=None)`.  A Python
string argument is falsy when empty, so an empty `repo` falls into the
org-wide branch exactly like `None`. -/
def combinedModelName (org : String) (repo : Option String) : String :=
  match repo with
  | some r => if r = "" then org ++ "_combined" else org ++ "/" ++ r ++ "_combined"
  | none => org ++ "_combined"

/-- Keys registered by `IssueLabelPredictor._load_models`: the universal
model, then for the single hardcoded org `kubeflow` an AutoML org model
and a combined model. -/
def modelKeys : List String := ["universal", "kubeflow", "kubeflow_combined"]

/-- Model-name resolution performed by `predict_labels_for_issue` when no
explicit `model_name` override is supplied. -/
def resolveModelName (org repo : String) : String :=
  let orgModel := combinedModelName org none
  let repoModel := combinedModelName org (some repo)
  if repoModel ∈ modelKeys then repoModel
  else if orgModel ∈ modelKeys then orgModel
  else "universal"

/-- Follows the spec's words (§4.2): return `"<org>/<repo>_combined"` if
that key is registered, else `"<org>_combined"` if registered, else
`"universal"`. -/
def resolveModelSpec (org repo : String) : String :=
  if org ++ "/" ++ repo ++ "_combined" ∈ modelKeys then
    org ++ "/" ++ repo ++ "_combined"
  else if org ++ "_combined" ∈ modelKeys then org ++ "_combined"
  else "universal"

/-! ### Prediction dispatch (issue_label_predictor.py, `predict`) -/

/-- Required keys for the text-based path. -/
def textKeys : List String := ["title", "text", "model_name"]

/-- Required keys for the issue-based path. -/
def issueKeys : List String := ["repo_owner", "repo_name", "issue_num"]

/-- Membership test `_dict_has_keys(d, keys)`; the payload dict is
embedded as an association list. -/
def dictHasKeys (d : List (String × String)) (keys : List String) : Bool :=
  keys.all (fun k => (d.lookup k).isSome)

/-- The call `predict` decides on: which downstream entry point is invoked
and with which payload values. -/
inductive PredictRoute where
  | textData (modelName title text : String)
  | issue (owner repoName issueNum : String) (modelName : Option String)
deriving DecidableEq

/-- Error message raised when neither required field set is present. -/
def missingKeysMessage (d : List (String × String)) : String :=
  "Data is missing required keys; got " ++
    String.intercalate "," (d.map Prod.fst) ++
    "; want [" ++ String.intercalate "," textKeys ++ "] or [" ++
    String.intercalate "," issueKeys ++ "]"

/-- Dispatch of `IssueLabelPredictor.predict`: the text-key set is checked
first, then the issue-key set, otherwise a `ValueError` naming both
accepted field sets is raised before any model is invoked. -/
def predictDispatch (d : List (String × String)) :
    Except String PredictRoute :=
  if dictHasKeys d textKeys then
    .ok (.textData ((d.lookup "model_name").getD "") ((d.lookup "title").getD "")
          ((d.lookup "text").getD ""))
  else if dictHasKeys d issueKeys then
    .ok (.issue ((d.lookup "repo_owner").getD "") ((d.lookup "repo_name").getD "")
          ((d.lookup "issue_num").getD "") (d.lookup "model_name"))
  else
    .error (missingKeysMessage d)

/-! ### Embedding fetch and decode (worker.py, `get_issue_embedding`)

`np.frombuffer(r.content, dtype="<f4")` reinterprets the response bytes
as little-endian 32-bit values and raises `ValueError` when the byte
length is not a multiple of the 4-byte item size; `[:1600]` then keeps at
most the first 1600 items.  Only the byte-level structure matters to the
claims, so each 32-bit item is represented by its little-endian word
value. -/

/-- Little-endian 32-bit words of a byte list; a trailing partial word
would make `np.frombuffer` raise, which `frombufferLE` signals separately. -/
def leWords : List ℕ → List ℕ
  | b0 :: b1 :: b2 :: b3 :: rest =>
      (b0 + 256 * b1 + 65536 * b2 + 16777216 * b3) :: leWords rest
  | _ => []

/-- Decode of `np.frombuffer(content, dtype="<f4")`: `none` models the
`ValueError` on a byte length that is not a multiple of 4. -/
def frombufferLE (content : List ℕ) : Option (List ℕ) :=
  if content.length % 4 = 0 then some (leWords content) else none

/-- Result of `Worker.get_issue_embedding`: a non-200 status returns the
Python `None` (`.ok none`), a 200 status decodes the body and keeps the
first 1600 items; `.error` models a raised exception. -/
def getIssueEmbedding (status : ℕ) (content : List ℕ) :
    Except Unit (Option (List ℕ)) :=
  if status ≠ 200 then .ok none
  else
    match frombufferLE content with
    | some ws => .ok (some (ws.take 1600))
    | none => .error ()

/-- The branch of `Worker.predict_issue_probability` on the embedding:
`None` short-circuits to `([], None)`, otherwise the MLP classifier (an
external collaborator, passed as `mlp`) produces the probability row. -/
def predictIssueProbability (mlp : List ℕ → List ℚ)
    (emb : Option (List ℕ)) : List ℚ × Option (List ℕ) :=
  match emb with
  | none => ([], none)
  | some e => (mlp e, some e)

/-! ### Threshold calibration (mlp.py, `find_probability_thresholds`)

For each label independently, the method computes
`sklearn.metrics.precision_recall_curve` on the held-out column and folds
over `zip(precision[:-1], recall[:-1], threshold)` keeping the candidate
with the strictly highest precision among those meeting both floors.

Per-label held-out data is a list of `(predicted probability, true
membership)` pairs.  `precision_recall_curve` returns, for every distinct
predicted score from the smallest one that already attains full recall up
to the largest, the precision and recall of the decision
`probability ≥ threshold`, with thresholds in increasing order; the final
sentinel point `(1, 0)` carries no threshold and is dropped by the
`[:-1]` slices. -/

/-- Number of held-out samples with predicted score at least `t` whose
true membership is positive. -/
def truePositives (data : List (ℚ × Bool)) (t : ℚ) : ℕ :=
  (data.filter (fun p => decide (t ≤ p.1) && p.2)).length

/-- Number of held-out samples with predicted score at least `t`. -/
def predictedPositives (data : List (ℚ × Bool)) (t : ℚ) : ℕ :=
  (data.filter (fun p => decide (t ≤ p.1))).length

/-- Number of positive samples in the held-out column. -/
def positives (data : List (ℚ × Bool)) : ℕ :=
  (data.filter (fun p => p.2)).length

/-- Precision of the decision `probability ≥ t` on the held-out column.
At every curve threshold at least one sample is predicted positive, so
the degenerate branch is never hit on curve points. -/
def precisionAt (data : List (ℚ × Bool)) (t : ℚ) : ℚ :=
  if predictedPositives data t = 0 then 0
  else (truePositives data t : ℚ) / (predictedPositives data t : ℚ)

/-- Recall of the decision `probability ≥ t` on the held-out column.  A
column with no positive sample gets recall 1 at every threshold, as in
`sklearn` (its precision is 0 there, so no threshold is ever chosen for
such a column under a positive precision floor). -/
def recallAt (data : List (ℚ × Bool)) (t : ℚ) : ℚ :=
  if positives data = 0 then 1
  else (truePositives data t : ℚ) / (positives data : ℚ)

/-- Thresholds of `precision_recall_curve` in the order the arrays are
returned: the distinct predicted scores, increasing, starting from the
largest score whose decision already attains full recall (lower scores
are cut by the curve's `last_ind` truncation). -/
def curveThresholds (data : List (ℚ × Bool)) : List ℚ :=
  let asc := List.insertionSort (· ≤ ·) (data.map Prod.fst).dedup
  match (asc.filter (fun t => truePositives data t = positives data)).getLast? with
  | some tstar => asc.filter (fun t => decide (tstar ≤ t))
  | none => []

/-- The candidate triples `zip(precision[:-1], recall[:-1], threshold)`
iterated by the selection loop of `find_probability_thresholds`. -/
def curvePoints (data : List (ℚ × Bool)) : List (ℚ × ℚ × ℚ) :=
  (curveThresholds data).map (fun t => (precisionAt data t, recallAt data t, t))

/-- Per-label output of the calibration: locals `best_precision`,
`best_recall`, `best_threshold` of the loop body, stored into
`self.precisions`, `self.recalls`, `self.probability_thresholds`. -/
structure CalibRecord where
  best_precision : ℚ
  best_recall : ℚ
  best_threshold : Option ℚ
deriving DecidableEq

/-- Initial accumulator `0.0, 0.0, None` of the selection loop. -/
def initRecord : CalibRecord := ⟨0, 0, none⟩

/-- A candidate `(precision, recall, threshold)` meets both floors. -/
def Meets (pf rf : ℚ) (c : ℚ × ℚ × ℚ) : Prop :=
  pf ≤ c.1 ∧ rf ≤ c.2.1

instance (pf rf : ℚ) (c : ℚ × ℚ × ℚ) : Decidable (Meets pf rf c) := by
  unfold Meets; infer_instance

/-- Body of the selection loop: a candidate meeting both floors replaces
the best one only when its precision is strictly higher. -/
def stepRecord (pf rf : ℚ) (st : CalibRecord) (c : ℚ × ℚ × ℚ) : CalibRecord :=
  if Meets pf rf c then
    if st.best_precision < c.1 then ⟨c.1, c.2.1, some c.2.2⟩ else st
  else st

/-- The selection loop over the candidate list. -/
def selectRecord (pf rf : ℚ) (cands : List (ℚ × ℚ × ℚ)) : CalibRecord :=
  cands.foldl (stepRecord pf rf) initRecord

/-- Follows the spec's words on tie-breaking: the same selection loop but
iterating the candidates in decreasing order of threshold value. -/
def selectRecordDescending (pf rf : ℚ) (cands : List (ℚ × ℚ × ℚ)) :
    CalibRecord :=
  selectRecord pf rf cands.reverse

/-- Per-label result of `MLPWrapper.find_probability_thresholds` on one
held-out label column, with floors `precision_threshold` and
`recall_threshold` (defaults 0.7 and 0.5). -/
def find_probability_thresholds (pf rf : ℚ) (data : List (ℚ × Bool)) :
    CalibRecord :=
  selectRecord pf rf (curvePoints data)

/-! ### Label prediction and filtering (worker.py) -/

/-- Truthiness test of `label_thresholds[i] and label_probabilities[i] >=
label_thresholds[i]`: a `None` entry is skipped, and so is a `0.0` entry,
because a Python float is falsy at zero. -/
def keepLabel (th : Option ℚ) (p : ℚ) : Bool :=
  match th with
  | none => false
  | some t => if t = 0 then false else decide (t ≤ p)

/-- Loop of `Worker.predict_labels` over `range(len(label_probabilities))`,
pairing `label_names[i]` with `label_probabilities[i]` when the threshold
check passes.  The threshold table is the dict
`label_columns["probability_thresholds"]`, keyed by label index; the
label file bundles names and thresholds, so the loop assumes at least as
many names as probabilities (Python would raise `IndexError` otherwise,
which no claim exercises). -/
def predictPairs (ths : ℕ → Option ℚ) :
    ℕ → List String → List ℚ → List (String × ℚ)
  | _, _, [] => []
  | _, [], _ :: _ => []
  | i, n :: ns, p :: ps =>
      (if keepLabel (ths i) p then [(n, p)] else []) ++
        predictPairs ths (i + 1) ns ps

/-- `Worker.predict_labels` restricted to its decision content: from the
raw probability row and the loaded label columns, build the parallel
`labels`/`probabilities` lists. -/
def predict_labels (ths : ℕ → Option ℚ) (names : List String)
    (probs : List ℚ) : Predictions :=
  ⟨(predictPairs ths 0 names probs).map Prod.fst,
   (predictPairs ths 0 names probs).map Prod.snd⟩

/-- Claim predicate for C3, following the claim's words amended by Python
truthiness: the entry for index `i` is present, nonzero, and the raw
probability at `i` meets or exceeds it. -/
def retainSpec (ths : ℕ → Option ℚ) (probs : List ℚ) (i : ℕ) : Prop :=
  ∃ t, ths i = some t ∧ t ≠ 0 ∧ t ≤ probs.getD i 0

instance (ths : ℕ → Option ℚ) (probs : List ℚ) (i : ℕ) :
    Decidable (retainSpec ths probs i) :=
  match h : ths i with
  | none => isFalse (by rintro ⟨t, ht, _⟩; rw [h] at ht; cases ht)
  | some t =>
      decidable_of_iff (t ≠ 0 ∧ t ≤ probs.getD i 0)
        ⟨fun hc => ⟨t, h, hc.1, hc.2⟩,
         fun hc => by
          rcases hc with ⟨u, hu, h1, h2⟩
          rw [h] at hu
          cases hu
          exact ⟨h1, h2⟩⟩

/-- `Worker.filter_specified_labels`: the repo YAML is falsy (`None` or an
empty mapping) or lacks the `predicted-labels` key, in which case all
predictions pass through; otherwise only predicted labels listed under
`predicted-labels` are kept, probabilities kept in step via `zip`. -/
def filter_specified_labels (yaml : Option (List (String × List String)))
    (pred : Predictions) : List String × List ℚ :=
  match yaml.bind (fun d => d.lookup "predicted-labels") with
  | some allowed =>
      ((((pred.labels.zip pred.probabilities).filter
          (fun np => decide (np.1 ∈ allowed))).map Prod.fst),
       (((pred.labels.zip pred.probabilities).filter
          (fun np => decide (np.1 ∈ allowed))).map Prod.snd))
  | none => (pred.labels, pred.probabilities)

/-! ### Selection-loop invariant and theorems -/

/-- Reachable states of the selection loop on candidate list `l`: either
nothing was selected yet (initial record; every floor-meeting candidate
seen has precision 0), or the record holds the first candidate attaining
the maximum precision among the floor-meeting candidates. -/
def SelInv (pf rf : ℚ) (l : List (ℚ × ℚ × ℚ)) (st : CalibRecord) : Prop :=
  (st = initRecord ∧ ∀ c ∈ l, Meets pf rf c → c.1 ≤ 0)
  ∨ ∃ i, ∃ h : i < l.length,
      st = ⟨(l[i]).1, (l[i]).2.1, some (l[i]).2.2⟩ ∧
      Meets pf rf (l[i]) ∧ 0 < (l[i]).1 ∧
      (∀ c ∈ l, Meets pf rf c → c.1 ≤ (l[i]).1) ∧
      ∀ j, (hj : j < l.length) → j < i → Meets pf rf (l[j]) →
        (l[j]).1 < (l[i]).1

theorem selectRecord_inv (pf rf : ℚ) (l : List (ℚ × ℚ × ℚ)) :
    SelInv pf rf l (selectRecord pf rf l) := by
  induction l using List.reverseRecOn with
  | nil => exact Or.inl ⟨rfl, by simp⟩
  | append_singleton xs c ih =>
      have hstep : selectRecord pf rf (xs ++ [c])
          = stepRecord pf rf (selectRecord pf rf xs) c := by
        simp [selectRecord, List.foldl_concat]
      set st := selectRecord pf rf xs with hstdef
      rw [hstep]
      have hgetc : ∀ h : xs.length < (xs ++ [c]).length,
          (xs ++ [c])[xs.length] = c :=
        fun h => List.getElem_concat_length xs c xs.length rfl h
      rcases ih with ⟨hst, hall⟩ | ⟨i, hi, hst, hmeets, hpos, hmax, hfirst⟩
      · by_cases hm : Meets pf rf c
        · by_cases hlt : st.best_precision < c.1
          · have hc1 : 0 < c.1 := by
              have := hlt; rw [hst] at this; simpa [initRecord] using this
            right
            refine ⟨xs.length, by simp, ?_, ?_, ?_, ?_, ?_⟩
            · rw [hgetc]; simp [stepRecord, hm, hlt]
            · rw [hgetc]; exact hm
            · rw [hgetc]; exact hc1
            · rw [hgetc]
              intro c2 hc2 hm2
              rcases List.mem_append.mp hc2 with h2 | h2
              · have := hall c2 h2 hm2; linarith
              · rw [List.mem_singleton.mp h2]
            · rw [hgetc]
              intro j hj hji hm2
              rw [List.getElem_append_left hji] at hm2 ⊢
              have := hall _ (List.getElem_mem hji) hm2
              linarith
          · left
            constructor
            · rw [show stepRecord pf rf st c = st by simp [stepRecord, hm, hlt],
                hst]
            · intro c2 hc2 hm2
              rcases List.mem_append.mp hc2 with h2 | h2
              · exact hall c2 h2 hm2
              · rw [List.mem_singleton.mp h2]
                have hbp : st.best_precision = 0 := by rw [hst]; rfl
                rw [hbp] at hlt; linarith
        · left
          constructor
          · rw [show stepRecord pf rf st c = st by simp [stepRecord, hm], hst]
          · intro c2 hc2 hm2
            rcases List.mem_append.mp hc2 with h2 | h2
            · exact hall c2 h2 hm2
            · rw [List.mem_singleton.mp h2] at hm2; exact absurd hm2 hm
      · have hbp : st.best_precision = (xs[i]).1 := by rw [hst]
        by_cases hm : Meets pf rf c
        · by_cases hlt : st.best_precision < c.1
          · right
            refine ⟨xs.length, by simp, ?_, ?_, ?_, ?_, ?_⟩
            · rw [hgetc]; simp [stepRecord, hm, hlt]
            · rw [hgetc]; exact hm
            · rw [hgetc]; rw [hbp] at hlt; linarith
            · rw [hgetc]
              intro c2 hc2 hm2
              rcases List.mem_append.mp hc2 with h2 | h2
              · have := hmax c2 h2 hm2; rw [hbp] at hlt; linarith
              · rw [List.mem_singleton.mp h2]
            · rw [hgetc]
              intro j hj hji hm2
              rw [List.getElem_append_left hji] at hm2 ⊢
              have := hmax _ (List.getElem_mem hji) hm2
              rw [hbp] at hlt; linarith
          · right
            have hi2 : i < (xs ++ [c]).length := by simp; omega
            refine ⟨i, hi2, ?_, ?_, ?_, ?_, ?_⟩
            · rw [List.getElem_append_left hi,
                show stepRecord pf rf st c = st by simp [stepRecord, hm, hlt],
                hst]
            · rw [List.getElem_append_left hi]; exact hmeets
            · rw [List.getElem_append_left hi]; exact hpos
            · rw [List.getElem_append_left hi]
              intro c2 hc2 hm2
              rcases List.mem_append.mp hc2 with h2 | h2
              · exact hmax c2 h2 hm2
              · rw [List.mem_singleton.mp h2]; rw [hbp] at hlt; linarith
            · intro j hj hji hm2
              have hjx : j < xs.length := by omega
              rw [List.getElem_append_left hjx] at hm2 ⊢
              rw [List.getElem_append_left hi]
              exact hfirst j hjx hji hm2
        · right
          have hi2 : i < (xs ++ [c]).length := by simp; omega
          refine ⟨i, hi2, ?_, ?_, ?_, ?_, ?_⟩
          · rw [List.getElem_append_left hi,
              show stepRecord pf rf st c = st by simp [stepRecord, hm], hst]
          · rw [List.getElem_append_left hi]; exact hmeets
          · rw [List.getElem_append_left hi]; exact hpos
          · rw [List.getElem_append_left hi]
            intro c2 hc2 hm2
            rcases List.mem_append.mp hc2 with h2 | h2
            · exact hmax c2 h2 hm2
            · rw [List.mem_singleton.mp h2] at hm2; exact absurd hm2 hm
          · intro j hj hji hm2
            have hjx : j < xs.length := by omega
            rw [List.getElem_append_left hjx] at hm2 ⊢
            rw [List.getElem_append_left hi]
            exact hfirst j hjx hji hm2

theorem curvePoints_fields (data : List (ℚ × Bool)) :
    ∀ c ∈ curvePoints data,
      c.1 = precisionAt data c.2.2 ∧ c.2.1 = recallAt data c.2.2 := by
  intro c hc
  rcases List.mem_map.mp hc with ⟨t, ht, rfl⟩
  exact ⟨rfl, rfl⟩

theorem curveThresholds_sorted (data : List (ℚ × Bool)) :
    (curveThresholds data).Sorted (· < ·) := by
  have hasc : (List.insertionSort (· ≤ ·) (data.map Prod.fst).dedup).Sorted
      (· ≤ ·) := List.sorted_insertionSort _ _
  have hnd : (List.insertionSort (· ≤ ·) (data.map Prod.fst).dedup).Nodup :=
    (List.perm_insertionSort _ _).nodup_iff.mpr (List.nodup_dedup _)
  have hlt := hasc.lt_of_le hnd
  simp only [curveThresholds]
  split
  · exact List.Pairwise.filter _ hlt
  · exact List.sorted_nil

theorem curvePoints_thresholds_sorted (data : List (ℚ × Bool)) :
    ((curvePoints data).map (fun c => c.2.2)).Sorted (· < ·) := by
  have h := curveThresholds_sorted data
  unfold curvePoints
  rw [List.map_map]
  have e : ((fun c : ℚ × ℚ × ℚ => c.2.2) ∘
      fun t : ℚ => (precisionAt data t, recallAt data t, t)) = id := rfl
  rw [e, List.map_id]
  exact h

/-- Concrete held-out column used by witnesses and the C5 counterexample:
scores 3/10 and 7/10, both samples positive.  Both curve points have
precision 1; threshold 3/10 has recall 1, threshold 7/10 has recall 1/2. -/
theorem curvePoints_example :
    curvePoints [((3:ℚ)/10, true), ((7:ℚ)/10, true)] =
      [(1, 1, (3:ℚ)/10), (1, (1:ℚ)/2, (7:ℚ)/10)] := by
  norm_num [curvePoints, curveThresholds, truePositives, predictedPositives,
    positives, precisionAt, recallAt, List.insertionSort, List.orderedInsert,
    List.dedup, List.pwFilter, List.filter]
  simp

/-- C2: for every held-out label column, when `find_probability_thresholds`
chooses a threshold (the entry is not `None`), the recorded precision and
recall are exactly the precision and recall of that threshold on the same
held-out column, and both meet their floors. -/
theorem chosen_threshold_meets_floors (pf rf : ℚ) (data : List (ℚ × Bool))
    (t : ℚ)
    (h : (find_probability_thresholds pf rf data).best_threshold = some t) :
    (find_probability_thresholds pf rf data).best_precision
        = precisionAt data t ∧
    (find_probability_thresholds pf rf data).best_recall = recallAt data t ∧
    pf ≤ precisionAt data t ∧ rf ≤ recallAt data t := by
  unfold find_probability_thresholds at h ⊢
  rcases selectRecord_inv pf rf (curvePoints data) with ⟨hst, _⟩ |
    ⟨i, hi, hst, hmeets, hpos, hmax, hfirst⟩
  · rw [hst] at h; exact absurd h (by simp [initRecord])
  · rw [hst] at h ⊢
    have ht : ((curvePoints data)[i]).2.2 = t := by
      simpa using h
    obtain ⟨h1, h2⟩ := curvePoints_fields data _ (List.getElem_mem hi)
    rw [ht] at h1 h2
    exact ⟨h1, h2, h1 ▸ hmeets.1, h2 ▸ hmeets.2⟩

/-- C2 witness: on the example column with both floors 1/2, the chosen
threshold is 3/10 and its precision 1 and recall 1 meet the floors. -/
theorem chosen_threshold_meets_floors_witness :
    (find_probability_thresholds ((1:ℚ)/2) ((1:ℚ)/2)
        [((3:ℚ)/10, true), ((7:ℚ)/10, true)]).best_threshold
      = some ((3:ℚ)/10) ∧
    ((1:ℚ)/2 ≤ precisionAt [((3:ℚ)/10, true), ((7:ℚ)/10, true)] ((3:ℚ)/10) ∧
     (1:ℚ)/2 ≤ recallAt [((3:ℚ)/10, true), ((7:ℚ)/10, true)] ((3:ℚ)/10)) := by
  have hsel : (find_probability_thresholds ((1:ℚ)/2) ((1:ℚ)/2)
      [((3:ℚ)/10, true), ((7:ℚ)/10, true)]).best_threshold
      = some ((3:ℚ)/10) := by
    rw [find_probability_thresholds, curvePoints_example]
    norm_num [selectRecord, stepRecord, initRecord, Meets]
  have hc := chosen_threshold_meets_floors ((1:ℚ)/2) ((1:ℚ)/2)
    [((3:ℚ)/10, true), ((7:ℚ)/10, true)] ((3:ℚ)/10) hsel
  exact ⟨hsel, hc.2.2⟩

/-- C6: for every held-out label column on which no candidate threshold of
the precision-recall sweep meets both floors, the calibrated entry is the
explicit absent marker `none` (not zero, not any default value). -/
theorem no_candidate_absent_threshold (pf rf : ℚ) (data : List (ℚ × Bool))
    (h : ∀ c ∈ curvePoints data, ¬ Meets pf rf c) :
    (find_probability_thresholds pf rf data).best_threshold = none := by
  unfold find_probability_thresholds
  rcases selectRecord_inv pf rf (curvePoints data) with ⟨hst, _⟩ |
    ⟨i, hi, hst, hmeets, _⟩
  · rw [hst]; rfl
  · exact absurd hmeets (h _ (List.getElem_mem hi))

/-- C6 witness: a column with a single negative sample (zero positive
examples) has one candidate, with precision 0; under floors 0.7 and 0.5
no candidate qualifies and the entry is absent. -/
theorem no_candidate_absent_threshold_witness :
    (∀ c ∈ curvePoints [((1:ℚ)/2, false)],
      ¬ Meets ((7:ℚ)/10) ((1:ℚ)/2) c) ∧
    (find_probability_thresholds ((7:ℚ)/10) ((1:ℚ)/2)
        [((1:ℚ)/2, false)]).best_threshold = none := by
  have hcurve : curvePoints [((1:ℚ)/2, false)] = [(0, 1, (1:ℚ)/2)] := by
    norm_num [curvePoints, curveThresholds, truePositives, predictedPositives,
      positives, precisionAt, recallAt, List.insertionSort,
      List.orderedInsert, List.dedup, List.pwFilter, List.filter]
  have hno : ∀ c ∈ curvePoints [((1:ℚ)/2, false)],
      ¬ Meets ((7:ℚ)/10) ((1:ℚ)/2) c := by
    rw [hcurve]
    intro c hc
    rw [List.mem_singleton.mp hc]
    norm_num [Meets]
  exact ⟨hno, no_candidate_absent_threshold _ _ _ hno⟩

/-- C5 (amended): when a threshold is chosen for a label, it is a candidate
of the precision-recall sweep meeting both floors whose precision is
maximal among all floor-meeting candidates, and among candidates tying on
that precision the first one encountered is kept when iterating
thresholds in increasing order of threshold value (the order in which
`precision_recall_curve` returns them), equivalently decreasing recall. -/
theorem chosen_threshold_max_precision (pf rf : ℚ) (data : List (ℚ × Bool))
    (t : ℚ)
    (h : (find_probability_thresholds pf rf data).best_threshold = some t) :
    ((curvePoints data).map (fun c => c.2.2)).Sorted (· < ·) ∧
    ∃ i, ∃ hi : i < (curvePoints data).length,
      ((curvePoints data)[i]).2.2 = t ∧
      ((curvePoints data)[i]).1
        = (find_probability_thresholds pf rf data).best_precision ∧
      Meets pf rf ((curvePoints data)[i]) ∧
      (∀ c ∈ curvePoints data, Meets pf rf c →
        c.1 ≤ ((curvePoints data)[i]).1) ∧
      ∀ j, (hj : j < (curvePoints data).length) → j < i →
        Meets pf rf ((curvePoints data)[j]) →
        ((curvePoints data)[j]).1 < ((curvePoints data)[i]).1 := by
  refine ⟨curvePoints_thresholds_sorted data, ?_⟩
  unfold find_probability_thresholds at h ⊢
  rcases selectRecord_inv pf rf (curvePoints data) with ⟨hst, _⟩ |
    ⟨i, hi, hst, hmeets, hpos, hmax, hfirst⟩
  · rw [hst] at h; exact absurd h (by simp [initRecord])
  · refine ⟨i, hi, ?_, ?_, hmeets, hmax, hfirst⟩
    · rw [hst] at h
      simpa using h
    · rw [hst]

/-- C5 witness: instantiation of the amended tie-break statement on the
example column with floors 0.7 and 0.5. -/
theorem chosen_threshold_max_precision_witness :
    (find_probability_thresholds ((7:ℚ)/10) ((1:ℚ)/2)
        [((3:ℚ)/10, true), ((7:ℚ)/10, true)]).best_threshold
      = some ((3:ℚ)/10) ∧
    ((curvePoints [((3:ℚ)/10, true), ((7:ℚ)/10, true)]).map
        (fun c => c.2.2)).Sorted (· < ·) := by
  have hsel : (find_probability_thresholds ((7:ℚ)/10) ((1:ℚ)/2)
      [((3:ℚ)/10, true), ((7:ℚ)/10, true)]).best_threshold
      = some ((3:ℚ)/10) := by
    rw [find_probability_thresholds, curvePoints_example]
    norm_num [selectRecord, stepRecord, initRecord, Meets]
  exact ⟨hsel, (chosen_threshold_max_precision ((7:ℚ)/10) ((1:ℚ)/2)
    [((3:ℚ)/10, true), ((7:ℚ)/10, true)] ((3:ℚ)/10) hsel).1⟩

/-- C5 counterexample: on the example column with floors 0.7 and 0.5 both
sweep candidates meet the floors and tie at precision 1; the code keeps
threshold 3/10, the first candidate in increasing threshold order, while
iterating in decreasing order of threshold value as the claim states
would keep 7/10. -/
theorem tie_break_decreasing_counterexample :
    curvePoints [((3:ℚ)/10, true), ((7:ℚ)/10, true)] =
      [(1, 1, (3:ℚ)/10), (1, (1:ℚ)/2, (7:ℚ)/10)] ∧
    (find_probability_thresholds ((7:ℚ)/10) ((1:ℚ)/2)
        [((3:ℚ)/10, true), ((7:ℚ)/10, true)]).best_threshold
      = some ((3:ℚ)/10) ∧
    (selectRecordDescending ((7:ℚ)/10) ((1:ℚ)/2)
        (curvePoints [((3:ℚ)/10, true), ((7:ℚ)/10, true)])).best_threshold
      = some ((7:ℚ)/10) ∧
    ((3:ℚ)/10 ≠ (7:ℚ)/10) := by
  refine ⟨curvePoints_example, ?_, ?_, by norm_num⟩
  · rw [find_probability_thresholds, curvePoints_example]
    norm_num [selectRecord, stepRecord, initRecord, Meets]
  · rw [curvePoints_example]
    norm_num [selectRecordDescending, selectRecord, stepRecord, initRecord,
      Meets]

/-- C1: for every outcome of the processing body — normal completion or a
raise at any of its steps — the callback performs exactly one
acknowledgment; the callback is a total function on outcomes, so no
exception propagates past its boundary. -/
theorem callback_acks_exactly_once (env : WorkerEnv) :
    (callbackTrace env).count CallbackEvent.ack = 1 := by
  obtain ⟨ly, dm, pl, al⟩ := env
  unfold callbackTrace
  cases ly with
  | error e => rfl
  | ok u1 =>
    cases dm with
    | error e => rfl
    | ok u2 =>
      cases pl with
      | error e => rfl
      | ok pr =>
        obtain ⟨preds, emb⟩ := pr
        dsimp only
        cases al preds with
        | error e => rfl
        | ok u3 => rfl

theorem slash_mem_append (a b c : String) :
    ('/' : Char) ∈ (a ++ "/" ++ b ++ c).data := by
  rw [String.data_append, String.data_append, String.data_append]
  have h : ('/' : Char) ∈ ("/" : String).data := by decide
  simp only [List.mem_append]
  tauto

theorem slash_append_not_mem_modelKeys (a b c : String) :
    (a ++ "/" ++ b ++ c) ∉ modelKeys := by
  intro hmem
  have hslash := slash_mem_append a b c
  simp only [modelKeys, List.mem_cons, List.not_mem_nil, or_false] at hmem
  rcases hmem with h | h | h <;>
    (rw [h] at hslash; exact absurd hslash (by decide))

/-- C4: without an explicit override, model resolution is total — it
always returns a single registered key, never erroring — and agrees with
the spec's resolution order: the repo-combined key if registered, else
the org-combined key if registered, else the universal key. -/
theorem resolve_model_total_and_spec (org repo : String) :
    resolveModelName org repo = resolveModelSpec org repo ∧
    resolveModelName org repo ∈ modelKeys := by
  constructor
  · by_cases hr : repo = ""
    · subst hr
      have hnot := slash_append_not_mem_modelKeys org "" "_combined"
      simp only [resolveModelName, resolveModelSpec, combinedModelName,
        if_pos rfl, if_neg hnot]
      split_ifs <;> rfl
    · simp only [resolveModelName, resolveModelSpec, combinedModelName,
        if_neg hr]
  · simp only [resolveModelName]
    split
    · next h => exact h
    · split
      · next h => exact h
      · simp [modelKeys]

/-- C7: a payload holding all of `title`, `text`, `model_name` routes to
the text-based entry point; otherwise one holding all of `repo_owner`,
`repo_name`, `issue_num` routes to the issue-based entry point; with
neither field set complete, `predict` raises an error naming both
accepted field sets, and no route (hence no model call) is produced. -/
theorem predict_dispatch_routes (d : List (String × String)) :
    (dictHasKeys d textKeys = true →
      predictDispatch d = .ok (.textData ((d.lookup "model_name").getD "")
        ((d.lookup "title").getD "") ((d.lookup "text").getD ""))) ∧
    (dictHasKeys d textKeys = false → dictHasKeys d issueKeys = true →
      predictDispatch d = .ok (.issue ((d.lookup "repo_owner").getD "")
        ((d.lookup "repo_name").getD "") ((d.lookup "issue_num").getD "")
        (d.lookup "model_name"))) ∧
    (dictHasKeys d textKeys = false → dictHasKeys d issueKeys = false →
      predictDispatch d = .error ("Data is missing required keys; got " ++
        String.intercalate "," (d.map Prod.fst) ++
        "; want [title,text,model_name] or [repo_owner,repo_name,issue_num]")) := by
  refine ⟨?_, ?_, ?_⟩
  · intro h1
    simp [predictDispatch, h1]
  · intro h1 h2
    simp [predictDispatch, h1, h2]
  · intro h1 h2
    simp only [predictDispatch, h1, h2, Bool.false_eq_true, if_false]
    congr 1
    simp only [missingKeysMessage, textKeys, issueKeys, String.append_assoc]
    rfl

/-- C7 witness: the three dispatch branches at concrete payloads — a
text payload, an issue payload, and a payload satisfying neither set. -/
theorem predict_dispatch_routes_witness :
    predictDispatch [("title", "t"), ("text", "x"), ("model_name", "m")]
      = .ok (.textData "m" "t" "x") ∧
    predictDispatch [("repo_owner", "o"), ("repo_name", "r"),
        ("issue_num", "1")]
      = .ok (.issue "o" "r" "1" none) ∧
    predictDispatch [("foo", "bar")]
      = .error ("Data is missing required keys; got foo; " ++
          "want [title,text,model_name] or [repo_owner,repo_name,issue_num]") := by
  refine ⟨?_, ?_, ?_⟩
  · exact (predict_dispatch_routes
      [("title", "t"), ("text", "x"), ("model_name", "m")]).1 (by decide)
  · exact (predict_dispatch_routes
      [("repo_owner", "o"), ("repo_name", "r"), ("issue_num", "1")]).2.1
      (by decide) (by decide)
  · have h := (predict_dispatch_routes [("foo", "bar")]).2.2
      (by decide) (by decide)
    rw [h]
    rfl

theorem keepLabel_eq_retainSpec (ths : ℕ → Option ℚ) (probs : List ℚ) :
    (fun k => keepLabel (ths k) (probs.getD k 0))
      = (fun k => decide (retainSpec ths probs k)) := by
  funext k
  rcases hk : ths k with _ | t
  · simp [keepLabel, retainSpec, hk]
  · by_cases h0 : t = 0
    · simp [keepLabel, retainSpec, hk, h0]
    · by_cases hle : t ≤ probs.getD k 0
      · simp [keepLabel, retainSpec, hk, h0, hle]
      · simp [keepLabel, retainSpec, hk, h0, hle]

theorem predictPairs_eq (ths : ℕ → Option ℚ) :
    ∀ (ps : List ℚ) (ns : List String) (i : ℕ), ps.length ≤ ns.length →
      predictPairs ths i ns ps =
        ((List.range ps.length).filter
            (fun k => keepLabel (ths (i + k)) (ps.getD k 0))).map
          (fun k => (ns.getD k "", ps.getD k 0)) := by
  intro ps
  induction ps with
  | nil => intro ns i h; simp [predictPairs]
  | cons p ps ih =>
    intro ns i h
    cases ns with
    | nil => simp at h
    | cons n ns =>
      have hlen : ps.length ≤ ns.length := by simpa using h
      have hfe : ((fun k => keepLabel (ths (i + k)) ((p :: ps).getD k 0))
            ∘ Nat.succ)
          = fun k => keepLabel (ths (i + 1 + k)) (ps.getD k 0) := by
        funext k
        have e : i + (k + 1) = i + 1 + k := by omega
        simp [Function.comp, e]
      have hge : ((fun k => ((n :: ns).getD k "", (p :: ps).getD k 0))
            ∘ Nat.succ)
          = fun k => (ns.getD k "", ps.getD k 0) := by
        funext k
        simp [Function.comp]
      simp only [predictPairs, List.length_cons, List.range_succ_eq_map,
        List.filter_cons, List.filter_map, List.map_map, hfe, hge,
        List.getD_cons_zero, Nat.add_zero]
      rw [ih ns (i + 1) hlen]
      by_cases hk : keepLabel (ths i) p
      · simp [hk]
      · simp [hk]

theorem predictPairs_sublist (ths : ℕ → Option ℚ) :
    ∀ (ps : List ℚ) (ns : List String) (i : ℕ),
      (predictPairs ths i ns ps).Sublist (ns.zip ps) := by
  intro ps
  induction ps with
  | nil => intro ns i; simp [predictPairs]
  | cons p ps ih =>
    intro ns i
    cases ns with
    | nil => simp [predictPairs]
    | cons n ns =>
      by_cases hk : keepLabel (ths i) p
      · simpa [predictPairs, hk] using (ih ns (i + 1)).cons₂ (n, p)
      · simpa [predictPairs, hk] using (ih ns (i + 1)).cons (n, p)

/-- C3 (amended): `predict_labels` retains a label exactly when the
threshold entry for its index is present, nonzero — Python float
truthiness drops a `0.0` entry just like `None` — and at most the raw
probability; on the literal regression scenario (thresholds 0.5 and 0.5,
probabilities 0.2 and 0.9) exactly label2 with probability 0.9 remains. -/
theorem predict_labels_retention (ths : ℕ → Option ℚ) (names : List String)
    (probs : List ℚ) (h : probs.length ≤ names.length) :
    (predict_labels ths names probs).labels =
      ((List.range probs.length).filter
          (fun k => decide (retainSpec ths probs k))).map
        (fun k => names.getD k "") ∧
    (predict_labels ths names probs).probabilities =
      ((List.range probs.length).filter
          (fun k => decide (retainSpec ths probs k))).map
        (fun k => probs.getD k 0) ∧
    predict_labels (fun i => if i < 2 then some ((1:ℚ)/2) else none)
        ["label1", "label2"] [(2:ℚ)/10, (9:ℚ)/10]
      = ⟨["label2"], [(9:ℚ)/10]⟩ := by
  have hpairs := predictPairs_eq ths probs names 0 h
  simp only [Nat.zero_add] at hpairs
  rw [keepLabel_eq_retainSpec] at hpairs
  refine ⟨?_, ?_, ?_⟩
  · simp only [predict_labels, hpairs, List.map_map]
    rfl
  · simp only [predict_labels, hpairs, List.map_map]
    rfl
  · norm_num [predict_labels, predictPairs, keepLabel]

/-- C3 witness: the amended retention statement applied to the regression
scenario inputs. -/
theorem predict_labels_retention_witness :
    ([(2:ℚ)/10, (9:ℚ)/10] : List ℚ).length
        ≤ (["label1", "label2"] : List String).length ∧
    predict_labels (fun i => if i < 2 then some ((1:ℚ)/2) else none)
        ["label1", "label2"] [(2:ℚ)/10, (9:ℚ)/10]
      = ⟨["label2"], [(9:ℚ)/10]⟩ :=
  ⟨by decide,
   (predict_labels_retention
      (fun i => if i < 2 then some ((1:ℚ)/2) else none)
      ["label1", "label2"] [(2:ℚ)/10, (9:ℚ)/10] (by decide)).2.2⟩

/-- C3 counterexample: a present threshold entry `0.0` with probability
1/2 ≥ 0.0 — by the claim the label is retained, but `predict_labels`
drops it because the Python float `0.0` is falsy. -/
theorem zero_threshold_counterexample :
    ((fun _ : ℕ => some (0:ℚ)) 0 = some (0:ℚ) ∧ (0:ℚ) ≤ (1:ℚ)/2) ∧
    predict_labels (fun _ => some (0:ℚ)) ["label1"] [(1:ℚ)/2]
      = ⟨[], []⟩ := by
  refine ⟨⟨rfl, by norm_num⟩, ?_⟩
  norm_num [predict_labels, predictPairs, keepLabel]

/-- C10: `predict_labels` and `filter_specified_labels` keep labels and
probabilities as parallel, equal-length sequences, each position pairing
a probability with its label; both outputs are positional subsequences of
their input pairings. -/
theorem parallel_and_subsequence :
    (∀ (ths : ℕ → Option ℚ) (names : List String) (probs : List ℚ),
      probs.length ≤ names.length →
      (predict_labels ths names probs).labels.length
        = (predict_labels ths names probs).probabilities.length ∧
      ((predict_labels ths names probs).labels.zip
        (predict_labels ths names probs).probabilities).Sublist
        (names.zip probs)) ∧
    (∀ (yaml : Option (List (String × List String))) (pred : Predictions),
      pred.labels.length = pred.probabilities.length →
      (filter_specified_labels yaml pred).1.length
        = (filter_specified_labels yaml pred).2.length ∧
      ((filter_specified_labels yaml pred).1.zip
        (filter_specified_labels yaml pred).2).Sublist
        (pred.labels.zip pred.probabilities)) := by
  constructor
  · intro ths names probs _
    constructor
    · simp [predict_labels]
    · have hz : ((predict_labels ths names probs).labels.zip
          (predict_labels ths names probs).probabilities)
          = predictPairs ths 0 names probs := by
        simp [predict_labels, List.zip_map']
      rw [hz]
      exact predictPairs_sublist ths probs names 0
  · intro yaml pred h
    unfold filter_specified_labels
    split
    · constructor
      · simp
      · rw [List.zip_map']
        have he : (fun a : String × ℚ => (a.1, a.2)) = id := rfl
        rw [he, List.map_id]
        exact List.filter_sublist _
    · exact ⟨h, List.Sublist.refl _⟩

/-- C10 witness: instantiation on concrete inputs for both parts. -/
theorem parallel_and_subsequence_witness :
    ((predict_labels (fun _ => some ((1:ℚ)/2)) ["a", "b"]
        [(3:ℚ)/4, (1:ℚ)/4]).labels.length
      = (predict_labels (fun _ => some ((1:ℚ)/2)) ["a", "b"]
        [(3:ℚ)/4, (1:ℚ)/4]).probabilities.length) ∧
    ((filter_specified_labels (some [("predicted-labels", ["a"])])
        ⟨["a", "b"], [(3:ℚ)/4, (1:ℚ)/4]⟩).1.length
      = (filter_specified_labels (some [("predicted-labels", ["a"])])
        ⟨["a", "b"], [(3:ℚ)/4, (1:ℚ)/4]⟩).2.length) :=
  ⟨(parallel_and_subsequence.1 (fun _ => some ((1:ℚ)/2)) ["a", "b"]
      [(3:ℚ)/4, (1:ℚ)/4] (by decide)).1,
   (parallel_and_subsequence.2 (some [("predicted-labels", ["a"])])
      ⟨["a", "b"], [(3:ℚ)/4, (1:ℚ)/4]⟩ (by decide)).1⟩

/-- C8: a non-200 response from the embedding service makes
`get_issue_embedding` return `None`; downstream,
`predict_issue_probability` short-circuits to an empty probability row
and `predict_labels` returns the empty label set — no labels, no
probabilities, no exception. -/
theorem embedding_unavailable_empty (status : ℕ) (content : List ℕ)
    (mlp : List ℕ → List ℚ) (ths : ℕ → Option ℚ) (names : List String)
    (h : status ≠ 200) :
    getIssueEmbedding status content = .ok none ∧
    predictIssueProbability mlp none = ([], none) ∧
    predict_labels ths names (predictIssueProbability mlp none).1
      = ⟨[], []⟩ := by
  refine ⟨by simp [getIssueEmbedding, h], rfl, ?_⟩
  cases names <;> rfl

/-- C8 witness: HTTP 404 yields an absent embedding and an empty
prediction. -/
theorem embedding_unavailable_empty_witness :
    getIssueEmbedding 404 [] = .ok none ∧
    predictIssueProbability (fun _ => [(1:ℚ)]) none = ([], none) ∧
    predict_labels (fun _ => some ((1:ℚ)/2)) ["bug"]
        (predictIssueProbability (fun _ => [(1:ℚ)]) none).1 = ⟨[], []⟩ :=
  embedding_unavailable_empty 404 [] (fun _ => [(1:ℚ)])
    (fun _ => some ((1:ℚ)/2)) ["bug"] (by decide)

theorem leWords_length : ∀ c : List ℕ, (leWords c).length = c.length / 4
  | [] => rfl
  | [_] => by simp [leWords]
  | [_, _] => by simp [leWords]
  | [_, _, _] => by simp [leWords]
  | _ :: _ :: _ :: _ :: rest => by
      simp only [leWords, List.length_cons, leWords_length rest]
      omega

theorem leWords_getD : ∀ (c : List ℕ) (k : ℕ), k < (leWords c).length →
    (leWords c).getD k 0 = c.getD (4 * k) 0 + 256 * c.getD (4 * k + 1) 0 +
      65536 * c.getD (4 * k + 2) 0 + 16777216 * c.getD (4 * k + 3) 0
  | [], k, hk => by simp [leWords] at hk
  | [_], k, hk => by simp [leWords] at hk
  | [_, _], k, hk => by simp [leWords] at hk
  | [_, _, _], k, hk => by simp [leWords] at hk
  | b0 :: b1 :: b2 :: b3 :: rest, 0, _ => by simp [leWords]
  | b0 :: b1 :: b2 :: b3 :: rest, k + 1, hk => by
      have hk2 : k < (leWords rest).length := by
        simpa [leWords] using hk
      rw [show 4 * (k + 1) + 3 = 4 * k + 3 + 1 + 1 + 1 + 1 from by ring,
        show 4 * (k + 1) + 2 = 4 * k + 2 + 1 + 1 + 1 + 1 from by ring,
        show 4 * (k + 1) + 1 = 4 * k + 1 + 1 + 1 + 1 + 1 from by ring,
        show 4 * (k + 1) = 4 * k + 1 + 1 + 1 + 1 from by ring]
      simp only [leWords, List.getD_cons_succ]
      exact leWords_getD rest k hk2

/-- C9 (amended): on HTTP 200, when the payload's byte length is a
multiple of 4 (otherwise `np.frombuffer` raises), the embedding is the
little-endian 32-bit decode of the bytes truncated to the first
`min(byteLength / 4, 1600)` items: truncation to at most 1600 items,
never padding — a short payload yields a short vector. -/
theorem embedding_decode_truncates (c : List ℕ) (h : c.length % 4 = 0) :
    ∃ v, getIssueEmbedding 200 c = .ok (some v) ∧
      v.length = min (c.length / 4) 1600 ∧
      ∀ k, k < v.length →
        v.getD k 0 = c.getD (4 * k) 0 + 256 * c.getD (4 * k + 1) 0 +
          65536 * c.getD (4 * k + 2) 0 + 16777216 * c.getD (4 * k + 3) 0 := by
  refine ⟨(leWords c).take 1600, ?_, ?_, ?_⟩
  · simp [getIssueEmbedding, frombufferLE, h]
  · simp only [List.length_take, leWords_length]
    omega
  · intro k hk
    have hk2 : k < (leWords c).length := by
      simp only [List.length_take] at hk
      omega
    rw [List.getD_eq_getElem _ _ hk, List.getElem_take,
      ← List.getD_eq_getElem _ _ hk2]
    exact leWords_getD c k hk2

/-- C9 witness: an 8-byte payload decodes to two little-endian words,
truncated to min(2, 1600) = 2 items. -/
theorem embedding_decode_truncates_witness :
    ([1, 2, 3, 4, 5, 6, 7, 8] : List ℕ).length % 4 = 0 ∧
    ∃ v, getIssueEmbedding 200 [1, 2, 3, 4, 5, 6, 7, 8] = .ok (some v) ∧
      v.length = min (([1, 2, 3, 4, 5, 6, 7, 8] : List ℕ).length / 4) 1600 ∧
      ∀ k, k < v.length →
        v.getD k 0 = ([1, 2, 3, 4, 5, 6, 7, 8] : List ℕ).getD (4 * k) 0 +
          256 * ([1, 2, 3, 4, 5, 6, 7, 8] : List ℕ).getD (4 * k + 1) 0 +
          65536 * ([1, 2, 3, 4, 5, 6, 7, 8] : List ℕ).getD (4 * k + 2) 0 +
          16777216 * ([1, 2, 3, 4, 5, 6, 7, 8] : List ℕ).getD (4 * k + 3) 0 :=
  ⟨by decide, embedding_decode_truncates [1, 2, 3, 4, 5, 6, 7, 8] (by decide)⟩

/-- C9 counterexample: a successful 4-byte payload decodes to a single
item, not to a 1600-element vector — the decode never pads to the fixed
length, contrary to the claim that every 200 response yields exactly 1600
elements regardless of the byte length. -/
theorem embedding_no_padding_counterexample :
    getIssueEmbedding 200 [0, 0, 0, 0] = .ok (some [0]) ∧
    ([0] : List ℕ).length ≠ 1600 := by
  constructor
  · rfl
  · decide

end LabelMicroservice
